import Mathlib

/-!
Shallow embedding of the burst-analysis pipeline
(src/burstAnalysis.py and src/interface.py).

Numeric values are modelled by rationals.  NumPy float division of a
count by a zero sample length (which yields NaN in the source, since the
numerator is then also 0) is modelled by the wrapper type PFloat with an
explicit nan constructor.  A fallible computation (a call that can raise
a ValueError in the source, such as a broadcast of incompatible shapes
or an out-of-bounds interpolation query) is modelled with Option, where
none is the raised error.
-/

namespace EkiStudy

/-- Result of a NumPy floating-point computation: either an ordinary
numeric value (modelled exactly as a rational) or NaN. -/
inductive PFloat where
  | val (q : ℚ)
  | nan
deriving DecidableEq, Repr

/-- NumPy division producing a float: the only zero-denominator division
reachable in the pipeline is 0/0, which NumPy evaluates to NaN. -/
def pdiv (a b : ℚ) : PFloat :=
  if b = 0 then PFloat.nan else PFloat.val (a / b)

/-- Number of sample points that are at most the given point; this is
the value of len(sc.where(sample<=point)[0]) in calcCDFs. -/
def countLE (sample : List ℚ) (point : ℚ) : ℕ :=
  (sample.filter (fun x => x ≤ point)).length

/-- Embedding of calcCDFs (src/burstAnalysis.py lines 114-129): for each
sample in sampleList, a row of CDF values over binEdges, each entry being
count(sample <= point) divided by the float nPts = len(sample). -/
def calcCDFs (sampleList : List (List ℚ)) (binEdges : List ℚ) : List (List PFloat) :=
  sampleList.map (fun sample =>
    binEdges.map (fun point =>
      pdiv ((countLE sample point : ℕ) : ℚ) ((sample.length : ℕ) : ℚ)))

/-- The slice datum[0::2]: every second element starting at index 0. -/
def stride2 {α : Type} : List α → List α
  | [] => []
  | [a] => [a]
  | a :: _ :: rest => a :: stride2 rest

/-- sc.diff: consecutive differences l[i+1] - l[i]. -/
def diffL (l : List ℚ) : List ℚ :=
  List.zipWith (fun a b => a - b) l.tail l

/-- NumPy elementwise binary operation on two 1-D arrays with
broadcasting: equal lengths operate pointwise, a length-1 array is
stretched to the other length, and any other shape pair raises a
ValueError (modelled by none). -/
def bop (f : ℚ → ℚ → ℚ) (a b : List ℚ) : Option (List ℚ) :=
  if a.length = b.length then some (List.zipWith f a b)
  else if a.length = 1 then some (b.map (fun y => f (a.headD 0) y))
  else if b.length = 1 then some (a.map (fun x => f x (b.headD 0)))
  else none

/-- The four measure sequences extracted from one trial. -/
structure TrialMeasures where
  burstDur : List ℚ
  cycleDur : List ℚ
  dutyCycle : List ℚ
  qI : List ℚ
deriving DecidableEq, Repr

/-- Per-measure collections of per-trial sequences, mirroring the
measures dictionary built by calcBurstMeasures. -/
structure MeasureSet where
  burstDur : List (List ℚ)
  cycleDur : List (List ℚ)
  dutyCycle : List (List ℚ)
  qI : List (List ℚ)
deriving DecidableEq, Repr

/-- One iteration of the loop in calcBurstMeasures (src/burstAnalysis.py
lines 90-97): burstStart = datum[0::2], burstStop = datum[1::2],
burstDur = burstStop - burstStart, cycleDur = diff(burstStart),
dutyCycle = burstDur[:-1] / cycleDur, qI = burstStart[1:] - burstStop[:-1].
The entrywise quotient in dutyCycle is modelled by rational division;
a zero cycle duration (impossible for strictly increasing timestamps)
would give NumPy inf or NaN where this model gives the junk value 0. -/
def calcTrialMeasures (datum : List ℚ) : Option TrialMeasures :=
  let burstStart := stride2 datum
  let burstStop := stride2 datum.tail
  (bop (fun a b => a - b) burstStop burstStart).bind (fun burstDur =>
    let cycleDur := diffL burstStart
    (bop (fun a b => a / b) burstDur.dropLast cycleDur).bind (fun dutyCycle =>
      (bop (fun a b => a - b) (burstStart.drop 1) burstStop.dropLast).map (fun qIv =>
        ⟨burstDur, cycleDur, dutyCycle, qIv⟩)))

/-- The loop of calcBurstMeasures over the trials, in order; an
exception (none) in any iteration aborts the whole call. -/
def collectTrials : List (List ℚ) → Option (List TrialMeasures)
  | [] => some []
  | datum :: rest =>
      (calcTrialMeasures datum).bind (fun t =>
        (collectTrials rest).map (fun ts => t :: ts))

/-- Embedding of calcBurstMeasures (src/burstAnalysis.py lines 73-102):
the per-trial results gathered into the per-measure lists of the
measures dictionary. -/
def calcBurstMeasures (data : List (List ℚ)) : Option MeasureSet :=
  (collectTrials data).map (fun trials =>
    ⟨trials.map (fun t => t.burstDur), trials.map (fun t => t.cycleDur),
     trials.map (fun t => t.dutyCycle), trials.map (fun t => t.qI)⟩)

/-- The two experimental groups, KINDS = (EKI, WT). -/
inductive Kind where
  | EKI
  | WT
deriving DecidableEq, Repr

/-- The four measure names, MEASURES. -/
inductive Measure where
  | burstDur
  | cycleDur
  | dutyCycle
  | qI
deriving DecidableEq, Repr

/-- sc.arange(start, stop, step): the points start + i*step for
0 <= i < ceil((stop - start)/step); empty when the count is
nonpositive.  A zero step (a NumPy error) is modelled as empty. -/
def arange (start stop step : ℚ) : List ℚ :=
  if step = 0 then []
  else (List.range (max 0 ⌈(stop - start) / step⌉).toNat).map
    (fun i => start + (i : ℚ) * step)

/-- Embedding of calcBins (src/burstAnalysis.py lines 105-111): fixed
per-measure bin edges, 0.04 written as 1/25. -/
def calcBins (m : Measure) : List ℚ :=
  match m with
  | Measure.burstDur => arange 1 50 1
  | Measure.cycleDur => arange 1 50 1
  | Measure.dutyCycle => arange 0 1 (1/25)
  | Measure.qI => arange 1 50 1

/-- NumPy float addition lifted to PFloat: NaN propagates. -/
def padd : PFloat → PFloat → PFloat
  | PFloat.val a, PFloat.val b => PFloat.val (a + b)
  | _, _ => PFloat.nan

/-- Sum of an array of floats, NaN-propagating. -/
def pfSum (l : List PFloat) : PFloat :=
  l.foldr padd (PFloat.val 0)

/-- NumPy mean of a 1-D float array: NaN on an empty array or when any
entry is NaN, otherwise the sum divided by the length. -/
def meanP (l : List PFloat) : PFloat :=
  match pfSum l with
  | PFloat.nan => PFloat.nan
  | PFloat.val s => if l.length = 0 then PFloat.nan else PFloat.val (s / (l.length : ℚ))

/-- NumPy matrix.mean(0): the column-wise mean over the row axis, over
as many columns as the first row has. -/
def mean0 (m : List (List PFloat)) : List PFloat :=
  (List.range (m.headD []).length).map
    (fun j => meanP (m.map (fun row => row.getD j PFloat.nan)))

/-- Embedding of calc_all_CDF (src/interface.py lines 69-83): CDF
matrices for every kind and measure over one shared binEdges grid. -/
def calc_all_CDF (md : Kind → Measure → List (List ℚ)) (binEdges : List ℚ) :
    Kind → Measure → List (List PFloat) :=
  fun kind measure => calcCDFs (md kind measure) binEdges

/-- Embedding of get_mean_CDF (src/interface.py lines 86-91): the mean
over the trial axis of the CDF matrix of one specific measure. -/
def get_mean_CDF (cdfs : Kind → Measure → List (List PFloat)) (specific : Measure) :
    Kind → List PFloat :=
  fun kind => mean0 (cdfs kind specific)

/-- A constructed scipy interp1d object: the data points, already
sorted by x (scipy sorts the x array, carrying y along, with a stable
mergesort). -/
structure Interp where
  xs : List ℚ
  ys : List ℚ
deriving DecidableEq, Repr

/-- Conversion from a PFloat array entry to the rational fed to the
interpolator; a NaN entry (which would propagate NaN junk through
scipy) is outside the modelled domain and is mapped to the junk value 0. -/
def pf2q : PFloat → ℚ
  | PFloat.val q => q
  | PFloat.nan => 0

/-- Construction of scipy.interpolate.interp1d(x, y): raises ValueError
(none) when x has fewer than 2 entries or the lengths disagree; otherwise
sorts the pairs stably by x.  insertionSort with a non-strict key
comparison is a stable sort, hence extensionally the argsort-mergesort
of the source. -/
def mkInterp1d (x y : List ℚ) : Option Interp :=
  if x.length < 2 ∨ x.length ≠ y.length then none
  else
    let ps := (x.zip y).insertionSort (fun a b => a.1 ≤ b.1)
    some ⟨ps.map Prod.fst, ps.map Prod.snd⟩

/-- np.searchsorted with side left on a sorted array: the number of
elements strictly below p. -/
def searchsortedLeft (xs : List ℚ) (p : ℚ) : ℕ :=
  (xs.filter (fun q => q < p)).length

/-- The in-range linear evaluation of interp1d (_call_linear): clip the
insertion index to [1, len-1], then interpolate linearly between the two
neighbouring data points.  Equal neighbouring x values (a flat CDF
region) give a 0/0 slope, NaN in the source, junk 0 here; no claim
concerns that case. -/
def callLinear (f : Interp) (p : ℚ) : ℚ :=
  let i := min (max (searchsortedLeft f.xs p) 1) (f.xs.length - 1)
  let xlo := f.xs.getD (i - 1) 0
  let xhi := f.xs.getD i 0
  let ylo := f.ys.getD (i - 1) 0
  let yhi := f.ys.getD i 0
  (yhi - ylo) / (xhi - xlo) * (p - xlo) + ylo

/-- Evaluating a constructed interp1d at p: with the default
bounds_error=True, a query below the smallest or above the largest x
datum raises ValueError (none); otherwise the linear interpolation
value is returned. -/
def interpEval (f : Interp) (p : ℚ) : Option ℚ :=
  if p < f.xs.getD 0 0 ∨ f.xs.getD (f.xs.length - 1) 0 < p then none
  else some (callLinear f p)

/-- Embedding of calc_quants_quarts (src/interface.py lines 94-106):
builds its own uniform grid arange(0, maxPt, binSize), computes all
CDFs over it, averages the CDFs of the selected measure, builds the
inverse interpolant x=mean CDF, y=binEdges per kind, and evaluates it
at arange(0.25, 1.00, 0.25); a bounds error in any quartile query
aborts the quartile computation for that kind. -/
def calc_quants_quarts (md : Kind → Measure → List (List ℚ)) (specific : Measure)
    (binSize maxPt : ℚ) : (Kind → Option Interp) × (Kind → Option (List ℚ)) :=
  let binEdges := arange 0 maxPt binSize
  let cdfs := calc_all_CDF md binEdges
  let means := get_mean_CDF cdfs specific
  let quants : Kind → Option Interp := fun k => mkInterp1d ((means k).map pf2q) binEdges
  let quartiles : Kind → Option (List ℚ) := fun k =>
    (quants k).bind (fun f => (arange (1/4) 1 (1/4)).mapM (interpEval f))
  (quants, quartiles)

/-- Embedding of get_min_max_quants (src/interface.py lines 109-115):
queries each kind's interpolant at 0.01 and at 1.0. -/
def get_min_max_quants (quants : Kind → Option Interp) :
    (Kind → Option ℚ) × (Kind → Option ℚ) :=
  (fun k => (quants k).bind (fun f => interpEval f (1/100)),
   fun k => (quants k).bind (fun f => interpEval f 1))

/-! ### Helper lemmas -/

theorem stride2_length {α : Type} : (l : List α) → (stride2 l).length = (l.length + 1) / 2
  | [] => by simp [stride2]
  | [_] => by simp [stride2]
  | _ :: _ :: rest => by
    simp only [stride2, List.length_cons, stride2_length rest]
    omega

theorem diffL_length (l : List ℚ) : (diffL l).length = l.length - 1 := by
  simp only [diffL, List.length_zipWith, List.length_tail]
  omega

theorem bop_of_length_eq (f : ℚ → ℚ → ℚ) {a b : List ℚ} (h : a.length = b.length) :
    bop f a b = some (List.zipWith f a b) := by
  simp [bop, h]

theorem bop_none (f : ℚ → ℚ → ℚ) {a b : List ℚ} (h1 : a.length ≠ b.length)
    (h2 : a.length ≠ 1) (h3 : b.length ≠ 1) : bop f a b = none := by
  simp [bop, h1, h2, h3]

theorem calcTrialMeasures_even (datum : List ℚ) (h : datum.length % 2 = 0) :
    ∃ t : TrialMeasures, calcTrialMeasures datum = some t ∧
      t.burstDur.length = datum.length / 2 ∧
      t.cycleDur.length = datum.length / 2 - 1 ∧
      t.dutyCycle.length = datum.length / 2 - 1 ∧
      t.qI.length = datum.length / 2 - 1 := by
  have hstart := stride2_length datum
  have hstop := stride2_length datum.tail
  rw [List.length_tail] at hstop
  have hlen1 : (stride2 datum.tail).length = (stride2 datum).length := by omega
  have e1 := bop_of_length_eq (fun a b => a - b) hlen1
  have hlen2 : (List.zipWith (fun a b => a - b) (stride2 datum.tail) (stride2 datum)).dropLast.length
      = (diffL (stride2 datum)).length := by
    rw [List.length_dropLast, List.length_zipWith, diffL_length]; omega
  have e2 := bop_of_length_eq (fun a b => a / b) hlen2
  have hlen3 : ((stride2 datum).drop 1).length = (stride2 datum.tail).dropLast.length := by
    rw [List.length_drop, List.length_dropLast]; omega
  have e3 := bop_of_length_eq (fun a b => a - b) hlen3
  have heq : calcTrialMeasures datum = some
      ⟨List.zipWith (fun a b => a - b) (stride2 datum.tail) (stride2 datum),
       diffL (stride2 datum),
       List.zipWith (fun a b => a / b)
         (List.zipWith (fun a b => a - b) (stride2 datum.tail) (stride2 datum)).dropLast
         (diffL (stride2 datum)),
       List.zipWith (fun a b => a - b) ((stride2 datum).drop 1) (stride2 datum.tail).dropLast⟩ := by
    simp only [calcTrialMeasures]
    rw [e1, Option.some_bind, e2, Option.some_bind, e3, Option.map_some']
  refine ⟨_, heq, ?_, ?_, ?_, ?_⟩
  · rw [List.length_zipWith]; omega
  · rw [diffL_length]; omega
  · rw [List.length_zipWith, List.length_dropLast, List.length_zipWith, diffL_length]; omega
  · rw [List.length_zipWith, List.length_drop, List.length_dropLast]; omega

theorem calcTrialMeasures_odd_ge5 (datum : List ℚ) (hodd : datum.length % 2 = 1)
    (h5 : 5 ≤ datum.length) : calcTrialMeasures datum = none := by
  have hstart := stride2_length datum
  have hstop := stride2_length datum.tail
  rw [List.length_tail] at hstop
  have e1 := bop_none (fun a b => a - b)
    (a := stride2 datum.tail) (b := stride2 datum)
    (by omega) (by omega) (by omega)
  simp only [calcTrialMeasures]
  rw [e1, Option.none_bind]

theorem calcBurstMeasures_single (datum : List ℚ) {t : TrialMeasures}
    (h : calcTrialMeasures datum = some t) :
    calcBurstMeasures [datum] = some ⟨[t.burstDur], [t.cycleDur], [t.dutyCycle], [t.qI]⟩ := by
  simp [calcBurstMeasures, collectTrials, h]

theorem calcBurstMeasures_single_none (datum : List ℚ)
    (h : calcTrialMeasures datum = none) : calcBurstMeasures [datum] = none := by
  simp [calcBurstMeasures, collectTrials, h]

/-- C2: for every Recording with an even number n of strictly increasing
timestamps, calcBurstMeasures produces burstDur of length n/2 and
cycleDur, dutyCycle, qI each of length n/2 - 1. -/
theorem c2_measure_lengths (datum : List ℚ) (heven : datum.length % 2 = 0)
    (_hsorted : datum.Sorted (fun a b => a < b)) :
    ∃ ms : MeasureSet, calcBurstMeasures [datum] = some ms ∧
      ms.burstDur.map List.length = [datum.length / 2] ∧
      ms.cycleDur.map List.length = [datum.length / 2 - 1] ∧
      ms.dutyCycle.map List.length = [datum.length / 2 - 1] ∧
      ms.qI.map List.length = [datum.length / 2 - 1] := by
  obtain ⟨t, ht, h1, h2, h3, h4⟩ := calcTrialMeasures_even datum heven
  exact ⟨_, calcBurstMeasures_single datum ht,
    by simp [h1], by simp [h2], by simp [h3], by simp [h4]⟩

/-- Witness for C2 at the recording [0, 2, 5, 7]. -/
theorem c2_witness :
    ([(0 : ℚ), 2, 5, 7].length % 2 = 0) ∧ ([(0 : ℚ), 2, 5, 7].Sorted (fun a b => a < b)) ∧
    ∃ ms : MeasureSet, calcBurstMeasures [[(0 : ℚ), 2, 5, 7]] = some ms ∧
      ms.burstDur.map List.length = [2] ∧
      ms.cycleDur.map List.length = [1] ∧
      ms.dutyCycle.map List.length = [1] ∧
      ms.qI.map List.length = [1] :=
  ⟨by decide, by decide, c2_measure_lengths [0, 2, 5, 7] (by decide) (by decide)⟩

/-- C5 counterexample: the recording [2, 1] is not strictly increasing,
yet calcBurstMeasures returns a MeasureSet (with a negative burst
duration) instead of failing. -/
theorem c5_counterexample :
    ¬ ([(2 : ℚ), 1].Sorted (fun a b => a < b)) ∧
    calcBurstMeasures [[(2 : ℚ), 1]] = some ⟨[[-1]], [[]], [[]], [[]]⟩ := by
  constructor
  · decide
  · norm_num [calcBurstMeasures, collectTrials, calcTrialMeasures, stride2, diffL, bop]

/-- C5 amended: calcBurstMeasures performs no monotonicity validation;
every even-length recording, strictly increasing or not, yields a
MeasureSet. -/
theorem c5_no_validation (datum : List ℚ) (heven : datum.length % 2 = 0)
    (_hns : ¬ datum.Sorted (fun a b => a < b)) :
    (calcBurstMeasures [datum]).isSome := by
  obtain ⟨t, ht, _⟩ := calcTrialMeasures_even datum heven
  rw [calcBurstMeasures_single datum ht]
  rfl

/-- Witness for the amended C5 at the recording [2, 1]. -/
theorem c5_witness :
    ([(2 : ℚ), 1].length % 2 = 0) ∧ ¬ ([(2 : ℚ), 1].Sorted (fun a b => a < b)) ∧
    (calcBurstMeasures [[(2 : ℚ), 1]]).isSome :=
  ⟨by decide, by decide, c5_no_validation [2, 1] (by decide) (by decide)⟩

/-- C6 counterexample: the odd-length recording [0, 1, 2, 3, 4] makes
calcBurstMeasures fail (mismatched array shapes), not succeed. -/
theorem c6_counterexample :
    ([(0 : ℚ), 1, 2, 3, 4].length % 2 = 1) ∧
    calcBurstMeasures [[(0 : ℚ), 1, 2, 3, 4]] = none :=
  ⟨by decide, calcBurstMeasures_single_none _ (calcTrialMeasures_odd_ge5 _ (by decide) (by decide))⟩

/-- C6 amended: for an odd number of timestamps the unpaired trailing
start is not dropped: with 5 or more timestamps the subtraction of
mismatched arrays fails; with exactly 3 the single stop broadcasts
against both starts, giving burstDur of length 2 rather than 1; with 1
timestamp all measures are empty. -/
theorem c6_odd_behaviour (datum : List ℚ) (hodd : datum.length % 2 = 1) :
    (5 ≤ datum.length → calcBurstMeasures [datum] = none) ∧
    (datum.length = 3 → ∃ a b c : ℚ, datum = [a, b, c] ∧ calcBurstMeasures [datum] =
      some ⟨[[b - a, b - c]], [[c - a]], [[(b - a) / (c - a)]], [[]]⟩) ∧
    (datum.length = 1 → calcBurstMeasures [datum] = some ⟨[[]], [[]], [[]], [[]]⟩) := by
  refine ⟨fun h5 => calcBurstMeasures_single_none _ (calcTrialMeasures_odd_ge5 _ hodd h5), ?_, ?_⟩
  · intro h3
    rcases datum with _ | ⟨a, _ | ⟨b, _ | ⟨c, _ | ⟨d, t⟩⟩⟩⟩ <;> simp at h3
    exact ⟨a, b, c, rfl,
      by simp [calcBurstMeasures, collectTrials, calcTrialMeasures, stride2, diffL, bop]⟩
  · intro h1
    rcases datum with _ | ⟨a, _ | ⟨b, t⟩⟩ <;> simp at h1
    simp [calcBurstMeasures, collectTrials, calcTrialMeasures, stride2, diffL, bop]

/-- Witness for the amended C6 at the odd recording [0, 1, 2]. -/
theorem c6_witness :
    ([(0 : ℚ), 1, 2].length % 2 = 1) ∧ ([(0 : ℚ), 1, 2].length = 3) ∧
    ∃ a b c : ℚ, [(0 : ℚ), 1, 2] = [a, b, c] ∧ calcBurstMeasures [[(0 : ℚ), 1, 2]] =
      some ⟨[[b - a, b - c]], [[c - a]], [[(b - a) / (c - a)]], [[]]⟩ :=
  ⟨by decide, by decide, (c6_odd_behaviour [0, 1, 2] (by decide)).2.1 (by decide)⟩

/-! ### CDF lemmas -/

theorem calcCDFs_getD (sampleList : List (List ℚ)) (binEdges : List ℚ) {i j : ℕ}
    (hi : i < sampleList.length) (hj : j < binEdges.length) :
    ((calcCDFs sampleList binEdges).getD i []).getD j PFloat.nan =
      pdiv ((countLE (sampleList.getD i []) (binEdges.getD j 0) : ℕ) : ℚ)
        (((sampleList.getD i []).length : ℕ) : ℚ) := by
  simp [calcCDFs, List.getD_eq_getElem?_getD, List.getElem?_map,
    List.getElem?_eq_getElem, hi, hj]

theorem countLE_mono (s : List ℚ) {e f : ℚ} (h : e ≤ f) : countLE s e ≤ countLE s f := by
  induction s with
  | nil => simp [countLE]
  | cons a t ih =>
    simp only [countLE] at ih ⊢
    simp only [List.filter_cons]
    by_cases hae : a ≤ e
    · have haf : a ≤ f := hae.trans h
      simp [hae, haf]
      omega
    · by_cases haf : a ≤ f
      · simp [hae, haf]
        omega
      · simp [hae, haf]
        exact ih

theorem countLE_le_length (s : List ℚ) (e : ℚ) : countLE s e ≤ s.length :=
  List.length_filter_le _ s

/-- C4 counterexample helper and C3 helper: concrete CDF evaluations. -/
theorem cdf_example_eq : calcCDFs [[(3/2 : ℚ), 5/2, 9/2]] [1, 2, 3, 4, 5] =
    [[PFloat.val 0, PFloat.val (1/3), PFloat.val (2/3), PFloat.val (2/3), PFloat.val 1]] := by
  norm_num [calcCDFs, countLE, pdiv, List.filter]
  simp

/-- For a non-empty sample the CDF entry is an ordinary value:
the count of sample points at most the edge, divided by the sample
length.  Shared by the entry-formula and invariant claims. -/
theorem cdf_entry_val (sampleList : List (List ℚ)) (binEdges : List ℚ)
    (hne : ∀ s ∈ sampleList, s ≠ []) {i j : ℕ}
    (hi : i < sampleList.length) (hj : j < binEdges.length) :
    ((calcCDFs sampleList binEdges).getD i []).getD j PFloat.nan =
      PFloat.val (((countLE (sampleList.getD i []) (binEdges.getD j 0) : ℕ) : ℚ) /
        (((sampleList.getD i []).length : ℕ) : ℚ)) := by
  rw [calcCDFs_getD sampleList binEdges hi hj]
  have hmem : sampleList.getD i [] ∈ sampleList := by
    rw [List.getD_eq_getElem sampleList [] hi]
    exact List.getElem_mem hi
  have hlen : (sampleList.getD i []).length ≠ 0 := by
    simpa [List.length_eq_zero] using hne _ hmem
  have hlen2 : ¬ ((((sampleList.getD i []).length : ℕ) : ℚ) = 0) := by
    exact_mod_cast hlen
  unfold pdiv
  rw [if_neg hlen2]

theorem sample_length_ne_zero (sampleList : List (List ℚ))
    (hne : ∀ s ∈ sampleList, s ≠ []) {i : ℕ} (hi : i < sampleList.length) :
    (sampleList.getD i []).length ≠ 0 := by
  have hmem : sampleList.getD i [] ∈ sampleList := by
    rw [List.getD_eq_getElem sampleList [] hi]
    exact List.getElem_mem hi
  simpa [List.length_eq_zero] using hne _ hmem

/-- C1: for non-empty samples, the CDF entry at row i, column j is
count(sample_i <= binEdges[j]) / len(sample_i). -/
theorem c1_cdf_entries (sampleList : List (List ℚ)) (binEdges : List ℚ)
    (hne : ∀ s ∈ sampleList, s ≠ []) :
    ∀ i j, i < sampleList.length → j < binEdges.length →
      ((calcCDFs sampleList binEdges).getD i []).getD j PFloat.nan =
        PFloat.val (((countLE (sampleList.getD i []) (binEdges.getD j 0) : ℕ) : ℚ) /
          (((sampleList.getD i []).length : ℕ) : ℚ)) :=
  fun _ _ hi hj => cdf_entry_val sampleList binEdges hne hi hj

/-- Witness for C1 on the sample [1] and bin edge [2]. -/
theorem c1_witness :
    (∀ s ∈ [[(1 : ℚ)]], s ≠ []) ∧
    ((calcCDFs [[(1 : ℚ)]] [2]).getD 0 []).getD 0 PFloat.nan = PFloat.val 1 := by
  refine ⟨by decide, ?_⟩
  have h := c1_cdf_entries [[(1 : ℚ)]] [2] (by decide) 0 0 (by decide) (by decide)
  rw [h]
  norm_num [countLE, List.filter]

/-- C3 counterexample: at sample [1.5, 2.5, 4.5] and edges [1,2,3,4,5]
the computed row is not the row claimed by the spec (the entry at edge 3
is 2/3, since both 1.5 and 2.5 are at most 3). -/
theorem c3_counterexample : calcCDFs [[(3/2 : ℚ), 5/2, 9/2]] [1, 2, 3, 4, 5] ≠
    [[PFloat.val 0, PFloat.val (1/3), PFloat.val (1/3), PFloat.val (2/3), PFloat.val 1]] := by
  rw [cdf_example_eq]
  simp
  norm_num

/-- C3 amended: the row computed for sample [1.5, 2.5, 4.5] over edges
[1,2,3,4,5] is [0, 1/3, 2/3, 2/3, 1]. -/
theorem c3_example_row : calcCDFs [[(3/2 : ℚ), 5/2, 9/2]] [1, 2, 3, 4, 5] =
    [[PFloat.val 0, PFloat.val (1/3), PFloat.val (2/3), PFloat.val (2/3), PFloat.val 1]] :=
  cdf_example_eq

/-- C4 counterexample: an empty sample does not make calcCDFs fail; the
call returns a row of NaN values. -/
theorem c4_counterexample : calcCDFs [([] : List ℚ)] [(1 : ℚ)] = [[PFloat.nan]] := by
  norm_num [calcCDFs, countLE, pdiv]

/-- C4 amended: an empty sample in sampleList does not raise any error;
its whole CDF row is computed as NaN (0/0) entries. -/
theorem c4_empty_sample_nan (sampleList : List (List ℚ)) (binEdges : List ℚ)
    (i : ℕ) (hi : i < sampleList.length) (hemp : sampleList.getD i [] = []) :
    (calcCDFs sampleList binEdges).getD i [] = binEdges.map (fun _ => PFloat.nan) := by
  have hget : sampleList[i] = ([] : List ℚ) := by
    rw [← List.getD_eq_getElem sampleList [] hi]
    exact hemp
  simp [calcCDFs, List.getD_eq_getElem?_getD, List.getElem?_map,
    List.getElem?_eq_getElem, hi, hget, pdiv, countLE]

/-- Witness for the amended C4 at sampleList [[]] and edges [1, 2]. -/
theorem c4_witness :
    (0 < [([] : List ℚ)].length) ∧ ([([] : List ℚ)].getD 0 [] = []) ∧
    (calcCDFs [([] : List ℚ)] [1, 2]).getD 0 [] = [PFloat.nan, PFloat.nan] := by
  refine ⟨by decide, by decide, ?_⟩
  have h := c4_empty_sample_nan [([] : List ℚ)] [1, 2] 0 (by decide) (by decide)
  simpa using h

/-- C7: every CDF row over non-empty samples and strictly increasing
edges has entries in [0, 1], non-decreasing along the bin axis. -/
theorem c7_rows_monotone_bounded (sampleList : List (List ℚ)) (binEdges : List ℚ)
    (hne : ∀ s ∈ sampleList, s ≠ []) (hsorted : binEdges.Sorted (fun a b => a < b)) :
    ∀ i j, i < sampleList.length → j < binEdges.length →
      ∃ q : ℚ, ((calcCDFs sampleList binEdges).getD i []).getD j PFloat.nan = PFloat.val q ∧
        0 ≤ q ∧ q ≤ 1 ∧
        (j + 1 < binEdges.length → ∃ q2 : ℚ,
          ((calcCDFs sampleList binEdges).getD i []).getD (j + 1) PFloat.nan = PFloat.val q2 ∧
          q ≤ q2) := by
  intro i j hi hj
  have hlen := sample_length_ne_zero sampleList hne hi
  have hlenpos : (0 : ℚ) < (((sampleList.getD i []).length : ℕ) : ℚ) := by
    exact_mod_cast Nat.pos_of_ne_zero hlen
  refine ⟨_, cdf_entry_val sampleList binEdges hne hi hj, ?_, ?_, ?_⟩
  · positivity
  · rw [div_le_one hlenpos]
    exact_mod_cast countLE_le_length _ _
  · intro hj1
    refine ⟨_, cdf_entry_val sampleList binEdges hne hi hj1, ?_⟩
    have hedge : binEdges.getD j 0 ≤ binEdges.getD (j + 1) 0 := by
      rw [List.getD_eq_getElem binEdges 0 hj, List.getD_eq_getElem binEdges 0 hj1]
      have hp := hsorted
      rw [List.Sorted, List.pairwise_iff_getElem] at hp
      exact le_of_lt (hp j (j + 1) hj hj1 (by omega))
    rw [div_le_div_iff_of_pos_right hlenpos]
    exact_mod_cast countLE_mono _ hedge

/-- Witness for C7 on sample [1] and edges [0, 2]. -/
theorem c7_witness :
    (∀ s ∈ [[(1 : ℚ)]], s ≠ []) ∧ ([(0 : ℚ), 2].Sorted (fun a b => a < b)) ∧
    ∃ q : ℚ, ((calcCDFs [[(1 : ℚ)]] [0, 2]).getD 0 []).getD 0 PFloat.nan = PFloat.val q ∧
      0 ≤ q ∧ q ≤ 1 ∧
      (0 + 1 < [(0 : ℚ), 2].length → ∃ q2 : ℚ,
        ((calcCDFs [[(1 : ℚ)]] [0, 2]).getD 0 []).getD (0 + 1) PFloat.nan = PFloat.val q2 ∧
        q ≤ q2) :=
  ⟨by decide, by decide,
    c7_rows_monotone_bounded [[(1 : ℚ)]] [0, 2] (by decide) (by decide) 0 0
      (by decide) (by decide)⟩

/-! ### Aggregator lemmas -/

theorem pfSum_map_val (qs : List ℚ) : pfSum (qs.map PFloat.val) = PFloat.val qs.sum := by
  induction qs with
  | nil => rfl
  | cons a t ih =>
    simp only [List.map_cons, pfSum, List.foldr_cons] at ih ⊢
    rw [ih]
    simp [padd]

theorem meanP_map_val (qs : List ℚ) (h : qs ≠ []) :
    meanP (qs.map PFloat.val) = PFloat.val (qs.sum / (qs.length : ℚ)) := by
  unfold meanP
  rw [pfSum_map_val]
  simp [List.length_eq_zero, h]

theorem meanP_single (x : PFloat) : meanP [x] = x := by
  cases x with
  | val q =>
    unfold meanP pfSum
    simp [padd]
  | nan => rfl

theorem getD_map_range {α : Type} (n j : ℕ) (f : ℕ → α) (d : α) (h : j < n) :
    ((List.range n).map f).getD j d = f j := by
  rw [List.getD_eq_getElem _ d (by simpa using h)]
  simp

theorem range_map_getD {α : Type} (l : List α) (d : α) :
    (List.range l.length).map (fun j => l.getD j d) = l := by
  apply List.ext_getElem
  · simp
  · intro i h1 h2
    simp [List.getD_eq_getElem?_getD, List.getElem?_eq_getElem h2]

theorem mean0_single (row : List PFloat) : mean0 [row] = row := by
  unfold mean0
  simp only [List.headD_cons, List.map_cons, List.map_nil, meanP_single]
  exact range_map_getD row PFloat.nan

/-- C8: the averaged CDF of get_mean_CDF is the column-wise arithmetic
mean over the trial axis, and averaging a single-trial matrix returns
exactly that trial's row. -/
theorem c8_mean_cdf (cdfs : Kind → Measure → List (List PFloat)) (specific : Measure)
    (kind : Kind) :
    (∀ (j : ℕ) (qs : List ℚ), j < ((cdfs kind specific).headD []).length → qs ≠ [] →
      (cdfs kind specific).map (fun row => row.getD j PFloat.nan) = qs.map PFloat.val →
      (get_mean_CDF cdfs specific kind).getD j PFloat.nan =
        PFloat.val (qs.sum / (qs.length : ℚ))) ∧
    (∀ row : List PFloat, cdfs kind specific = [row] →
      get_mean_CDF cdfs specific kind = row) := by
  constructor
  · intro j qs hj hqs hcol
    unfold get_mean_CDF mean0
    rw [getD_map_range _ j _ PFloat.nan hj, hcol, meanP_map_val qs hqs]
  · intro row hrow
    unfold get_mean_CDF
    rw [hrow]
    exact mean0_single row

/-- A concrete single-trial CDF table used as the C8 witness input. -/
def cdfsEx : Kind → Measure → List (List PFloat) := fun _ _ => [[PFloat.val 0, PFloat.val 1]]

/-- Witness for C8 on a single-trial matrix. -/
theorem c8_witness :
    ((0 : ℕ) < ((cdfsEx Kind.EKI Measure.burstDur).headD []).length) ∧
    ([(0 : ℚ)] ≠ []) ∧
    ((cdfsEx Kind.EKI Measure.burstDur).map (fun row => row.getD 0 PFloat.nan) =
      [(0 : ℚ)].map PFloat.val) ∧
    ((get_mean_CDF cdfsEx Measure.burstDur Kind.EKI).getD 0 PFloat.nan =
      PFloat.val ([(0 : ℚ)].sum / (([(0 : ℚ)].length : ℕ) : ℚ))) ∧
    (get_mean_CDF cdfsEx Measure.burstDur Kind.EKI = [PFloat.val 0, PFloat.val 1]) :=
  ⟨by decide, by decide, by decide,
    (c8_mean_cdf cdfsEx Measure.burstDur Kind.EKI).1 0 [0] (by decide) (by decide) (by decide),
    (c8_mean_cdf cdfsEx Measure.burstDur Kind.EKI).2 [PFloat.val 0, PFloat.val 1] rfl⟩

/-! ### Quantile engine lemmas -/

/-- C9: a query at a probability below every averaged-CDF value or above
every averaged-CDF value fails (the bounds error of the interpolant)
instead of extrapolating. -/
theorem c9_out_of_domain (x y : List ℚ) (f : Interp) (p : ℚ)
    (hf : mkInterp1d x y = some f)
    (hout : (∀ q ∈ x, p < q) ∨ (∀ q ∈ x, q < p)) :
    interpEval f p = none := by
  unfold mkInterp1d at hf
  by_cases hg : x.length < 2 ∨ x.length ≠ y.length
  · rw [if_pos hg] at hf
    exact absurd hf (by simp)
  · rw [if_neg hg] at hf
    push_neg at hg
    obtain ⟨hlen2, hlenxy⟩ := hg
    have hfeq : f = ⟨((x.zip y).insertionSort (fun a b => a.1 ≤ b.1)).map Prod.fst,
        ((x.zip y).insertionSort (fun a b => a.1 ≤ b.1)).map Prod.snd⟩ := by
      exact (Option.some_inj.mp hf).symm
    have hperm : f.xs.Perm x := by
      rw [hfeq]
      have h1 := List.perm_insertionSort (fun a b : ℚ × ℚ => a.1 ≤ b.1) (x.zip y)
      have h2 := h1.map Prod.fst
      rw [List.map_fst_zip x y (le_of_eq hlenxy)] at h2
      exact h2
    have hxs_ne : f.xs ≠ [] := by
      intro hnil
      have hl := hperm.length_eq
      rw [hnil] at hl
      simp at hl
      omega
    have hpos : 0 < f.xs.length := List.length_pos.mpr hxs_ne
    have hmem0 : f.xs.getD 0 0 ∈ f.xs := by
      rw [List.getD_eq_getElem f.xs 0 hpos]
      exact List.getElem_mem hpos
    have hposL : f.xs.length - 1 < f.xs.length := by omega
    have hmemL : f.xs.getD (f.xs.length - 1) 0 ∈ f.xs := by
      rw [List.getD_eq_getElem f.xs 0 hposL]
      exact List.getElem_mem hposL
    unfold interpEval
    rcases hout with hbelow | habove
    · rw [if_pos (Or.inl (hbelow _ (hperm.subset hmem0)))]
    · rw [if_pos (Or.inr (habove _ (hperm.subset hmemL)))]

/-- Witness for C9: probability 4 lies above the whole averaged CDF
[0, 1, 3], and the query fails. -/
theorem c9_witness :
    (mkInterp1d [0, 1, 3] [5, 6, 7] = some (Interp.mk [0, 1, 3] [5, 6, 7])) ∧
    (∀ q ∈ [(0 : ℚ), 1, 3], q < 4) ∧
    interpEval (Interp.mk [0, 1, 3] [5, 6, 7]) 4 = none :=
  ⟨by decide, by decide,
    c9_out_of_domain [0, 1, 3] [5, 6, 7] (Interp.mk [0, 1, 3] [5, 6, 7]) 4 (by decide)
      (Or.inr (by decide))⟩

/-- C10: the quants and quartiles of calc_quants_quarts depend only on
the selected measure's samples and the binSize and maxPt arguments
(its own arange grid); the per-measure edges of calcBins are never
used. -/
theorem c10_quants_depend_only_on_selected (md1 md2 : Kind → Measure → List (List ℚ))
    (specific : Measure) (binSize maxPt : ℚ)
    (h : ∀ k, md1 k specific = md2 k specific) :
    calc_quants_quarts md1 specific binSize maxPt =
      calc_quants_quarts md2 specific binSize maxPt := by
  simp only [calc_quants_quarts, calc_all_CDF, get_mean_CDF, h]

/-- Witness inputs for C10: two measure tables equal on burstDur but
different on cycleDur. -/
def md1ex : Kind → Measure → List (List ℚ) := fun _ m =>
  match m with
  | Measure.burstDur => [[1]]
  | _ => [[2]]

/-- Second witness input for C10. -/
def md2ex : Kind → Measure → List (List ℚ) := fun _ m =>
  match m with
  | Measure.burstDur => [[1]]
  | _ => [[3]]

/-- Witness for C10: the two tables agree on burstDur, so quants and
quartiles agree, although the other measures' samples differ. -/
theorem c10_witness :
    (∀ k, md1ex k Measure.burstDur = md2ex k Measure.burstDur) ∧
    (md1ex Kind.EKI Measure.cycleDur ≠ md2ex Kind.EKI Measure.cycleDur) ∧
    calc_quants_quarts md1ex Measure.burstDur 1 2 =
      calc_quants_quarts md2ex Measure.burstDur 1 2 :=
  ⟨fun k => by cases k <;> rfl, by decide,
    c10_quants_depend_only_on_selected md1ex md2ex Measure.burstDur 1 2
      (fun k => by cases k <;> rfl)⟩

end EkiStudy